import Mathlib

/-
A shallow embedding of the transcript-server example (worker.py and
main.py): the TranscriptionWorker scheduler loop and its connection
registry, the TranscriptionHandler submission and chunking code, the
worker lifecycle inherited from threading.Thread, and the websocket
endpoint of main.py.  Behavior of the Python standard library that the
code relies on (queue.Queue semantics, threading.Thread.start) is
modelled explicitly and noted at each definition.
-/

/-- An audio buffer handed to the engine, modelled as an opaque token. -/
abbrev Req := Nat

/-- A connection identifier (a uuid4 string in the source). -/
abbrev ConnId := String

/-- First-match association-list lookup, the semantics of a Python dict
read d[k] / k in d over the insertion-ordered entry list. -/
def lookupKey {α β : Type} [DecidableEq α] (k : α) : List (α × β) → Option β
  | [] => none
  | (a, b) :: rest => if a = k then some b else lookupKey k rest

namespace TranscriptionWorker

/-- Handle identifying one queue.Queue object allocated by
get_request_queue; distinct allocations get distinct handles. -/
abbrev QueueHandle := Nat

/-- State backing TranscriptionWorker registration: self.connections is
the dict from connection id to its queue object in insertion order
(worker.py line 165), together with a heap of allocated queue objects
addressed by handle and a fresh-handle counter. -/
structure Registry where
  connections : List (ConnId × QueueHandle)
  queues : List (QueueHandle × List Req)
  nextHandle : QueueHandle
deriving DecidableEq

/-- TranscriptionWorker.get_request_queue (worker.py lines 167-176):
if the id is a known key of self.connections, return its queue object;
otherwise allocate a fresh empty queue.Queue, store it under the id
(dict insertion appends the new key at the end), and return it. -/
def get_request_queue (reg : Registry) (cid : ConnId) : QueueHandle × Registry :=
  match lookupKey cid reg.connections with
  | some h => (h, reg)
  | none =>
      (reg.nextHandle,
        ⟨reg.connections ++ [(cid, reg.nextHandle)],
         (reg.nextHandle, []) :: reg.queues,
         reg.nextHandle + 1⟩)

/-- Observable step of the scheduler loop in TranscriptionWorker.run
(worker.py lines 178-198).  pop id: a request is dequeued from the
queue of id.  deliver id t: the transcription t is handed to
run_coroutine_threadsafe for the result queue of id.  logError id: the
engine raised and logger.error ran.  block id: the scheduler entered
request_queue.get() on an empty queue; get() is a blocking call
(worker.py line 187 passes no block=False), so with no concurrent
producer the wait never ends and the except queue.Empty branch at line
188 is unreachable.  sleep: a backoff sleep; the source contains no
sleep call, so no run emits it. -/
inductive Action where
  | pop (id : ConnId) : Action
  | deliver (id : ConnId) (text : String) : Action
  | logError (id : ConnId) : Action
  | block (id : ConnId) : Action
  | sleep : Action
deriving DecidableEq

/-- Result of running the scheduler: the emitted action trace, the
results handed to the Result Dispatcher in order as pairs of connection
id and text, the final per-connection pending queues, and whether the
scheduler is stuck inside a blocking get. -/
structure PassResult where
  trace : List Action
  outputs : List (ConnId × String)
  conns : List (ConnId × List Req)
  blocked : Bool
deriving DecidableEq

/-- One pass of the for loop in TranscriptionWorker.run (worker.py
lines 183-198) over the snapshot self.connections.copy().items(), with
the live queue contents given per connection id in snapshot order.  The
engine e models TranscriptionService.transcribe: some t is a returned
transcription, none is a raised exception (caught at line 197 and
logged).  A nonempty queue yields its head to request_queue.get(); an
empty queue makes get() block, which with no concurrent producer stops
the pass (and the loop) for good, leaving later connections unscanned. -/
def runPass (e : Req → Option String) : List (ConnId × List Req) → PassResult
  | [] => ⟨[], [], [], false⟩
  | (id, []) :: rest => ⟨[Action.block id], [], (id, []) :: rest, true⟩
  | (id, r :: q) :: rest =>
      match e r with
      | some t =>
          ⟨Action.pop id :: Action.deliver id t :: (runPass e rest).trace,
           (id, t) :: (runPass e rest).outputs,
           (id, q) :: (runPass e rest).conns,
           (runPass e rest).blocked⟩
      | none =>
          ⟨Action.pop id :: Action.logError id :: (runPass e rest).trace,
           (runPass e rest).outputs,
           (id, q) :: (runPass e rest).conns,
           (runPass e rest).blocked⟩

/-- The while self.is_running loop of TranscriptionWorker.run (worker.py
lines 179-198), run for a number of passes (the flag stays true unless
stop() is called; fuel counts the passes observed).  A pass that entered
a blocking get never finishes, so the loop ends there. -/
def run (e : Req → Option String) : Nat → List (ConnId × List Req) → PassResult
  | 0, s => ⟨[], [], s, false⟩
  | n + 1, s =>
      if (runPass e s).blocked then runPass e s
      else
        ⟨(runPass e s).trace ++ (run e n (runPass e s).conns).trace,
         (runPass e s).outputs ++ (run e n (runPass e s).conns).outputs,
         (run e n (runPass e s).conns).conns,
         (run e n (runPass e s).conns).blocked⟩

/-- The pending queue of a given connection id in a snapshot. -/
def queueOf (cid : ConnId) : List (ConnId × List Req) → List Req
  | [] => []
  | (id, q) :: rest => if id = cid then q else queueOf cid rest

/-- The subsequence of delivered texts belonging to a given connection,
in delivery order: run_coroutine_threadsafe posts the coroutines of one
result queue onto the event loop in call order, so this is the order in
which the texts reach the outbound queue of that connection. -/
def outputsFor (cid : ConnId) : List (ConnId × String) → List String
  | [] => []
  | (id, t) :: rest =>
      if id = cid then t :: outputsFor cid rest else outputsFor cid rest

/-- Lifecycle state of the worker thread: started is the internal
threading.Thread flag recording that start() already ran, is_running is
the class attribute at worker.py line 159 read by the run loop. -/
structure Lifecycle where
  started : Bool
  is_running : Bool
deriving DecidableEq

/-- The worker as constructed in __init__ (worker.py lines 161-165):
not yet started, is_running true from the class attribute. -/
def initWorker : Lifecycle := ⟨false, true⟩

/-- threading.Thread.start, inherited unchanged by TranscriptionWorker:
it raises RuntimeError if the thread was already started, otherwise it
marks the thread started and begins run() on the new thread. -/
def start (w : Lifecycle) : Except String Lifecycle :=
  if w.started then Except.error "threads can only be started once"
  else Except.ok ⟨true, w.is_running⟩

/-- TranscriptionWorker.stop (worker.py lines 200-201): sets the
is_running flag to False and nothing else. -/
def stop (w : Lifecycle) : Lifecycle := ⟨w.started, false⟩

end TranscriptionWorker

namespace TranscriptionHandler

/-- A queue.Queue as used by the handler: maxsize 0 means unbounded,
which is what queue.Queue() with no argument (worker.py line 175)
creates; items in FIFO order. -/
structure Queue where
  maxsize : Nat
  items : List Req
deriving DecidableEq

/-- queue.Queue.full: true exactly when maxsize is positive and the
current size has reached it; an unbounded queue is never full. -/
def Queue.isFull (q : Queue) : Bool :=
  decide (0 < q.maxsize ∧ q.maxsize ≤ q.items.length)

/-- queue.Queue.put_nowait: raises queue.Full exactly when the queue is
at capacity, otherwise appends the item at the tail. -/
def Queue.put_nowait (q : Queue) (r : Req) : Except Unit Queue :=
  if q.isFull then Except.error ()
  else Except.ok ⟨q.maxsize, q.items ++ [r]⟩

/-- Outcome of the submission loop in TranscriptionHandler.accept:
the final queue, how many times logger.error ran for queue.Full, and
every message the loop sent to the websocket client. -/
structure SubmitResult where
  queue : Queue
  logged : Nat
  clientMsgs : List String
deriving DecidableEq

/-- The for chunk in audio_chunks loop of TranscriptionHandler.accept
(worker.py lines 44-53): each chunk is enqueued with put_nowait; on
queue.Full the exception is caught on the spot, logger.error runs, the
chunk is dropped, and the loop moves to the next chunk.  Nothing is
raised out of the loop and nothing is sent to the client. -/
def submitChunks : Queue → List Req → SubmitResult
  | q, [] => ⟨q, 0, []⟩
  | q, c :: rest =>
      match q.put_nowait c with
      | Except.ok q2 =>
          ⟨(submitChunks q2 rest).queue,
           (submitChunks q2 rest).logged,
           (submitChunks q2 rest).clientMsgs⟩
      | Except.error _ =>
          ⟨(submitChunks q rest).queue,
           (submitChunks q rest).logged + 1,
           (submitChunks q rest).clientMsgs⟩

/-- worker.py line 16. -/
def WHISPER_MODEL_SAMPLE_RATE : Nat := 16000

/-- worker.py line 72. -/
def chunk_duration : Nat := 15

/-- worker.py line 73: 240000 samples. -/
def chunk_samples : Nat := chunk_duration * WHISPER_MODEL_SAMPLE_RATE

/-- worker.py line 74: 224000 samples. -/
def chunk_shift_samples : Nat := (chunk_duration - 1) * WHISPER_MODEL_SAMPLE_RATE

/-- TranscriptionHandler.__load_audio_chunks_blocking (worker.py lines
55-85) after the load and optional resample, both of which keep the
channel dimension.  The tensor audio is a list of channel rows, each a
list of samples; samples stay abstract and the channel mean of
torch.mean(audio, dim=0, keepdim=True) is an abstract per-column mix.
len(audio) in Python is the number of rows of the 2-D tensor, and
waveform[start:end] is drop start then take (end - start).  nchunks is
math.ceil(len(audio) / chunk_shift_samples), with the Nat ceiling
division agreeing with the Python float ceil on these integers. -/
def load_audio_chunks {α : Type} (mix : List α → α) (audio : List (List α)) :
    List (List α) :=
  let audio2 := if 1 < audio.length then [(audio.transpose).map mix] else audio
  let waveform := audio2.headD []
  let nchunks := (audio2.length + chunk_shift_samples - 1) / chunk_shift_samples
  (List.range nchunks).map
    (fun i => (waveform.drop (i * chunk_shift_samples)).take chunk_samples)

end TranscriptionHandler

namespace MainServer

/-- Observable effects of the served websocket endpoint of main.py:
messages sent to the client, transcription requests submitted to the
worker, and the decoded pcm frames in arrival order. -/
structure EndpointEffects where
  sent : List String
  submitted : List Req
  decoded : List (List ℚ)
deriving DecidableEq

/-- main.py line 23: the received byte frame, viewed as int16 samples,
converted to float and divided by 32768. -/
def decodeFrame (frame : List Int) : List ℚ :=
  frame.map (fun v => (v : ℚ) / 32768)

/-- The while True body of websocket_endpoint (main.py lines 21-24):
receive a byte frame, decode it, print it; the transcription path
(main.py lines 27-32) is commented out in the source.  The loop has no
break or return, so it consumes every frame the client ever sends. -/
def endpointLoop : List (List Int) → EndpointEffects
  | [] => ⟨[], [], []⟩
  | f :: rest =>
      ⟨(endpointLoop rest).sent,
       (endpointLoop rest).submitted,
       decodeFrame f :: (endpointLoop rest).decoded⟩

/-- websocket_endpoint (main.py lines 15-24): accept the connection,
then run the receive loop on the stream of incoming frames. -/
def websocket_endpoint (frames : List (List Int)) : EndpointEffects :=
  endpointLoop frames

end MainServer

namespace TranscriptionWorker

theorem lookupKey_append_single {α β : Type} [DecidableEq α] (k : α) (v : β)
    (l : List (α × β)) (h : lookupKey k l = none) :
    lookupKey k (l ++ [(k, v)]) = some v := by
  induction l with
  | nil => simp [lookupKey]
  | cons hd rest ih =>
    obtain ⟨a, b⟩ := hd
    by_cases hak : a = k
    · simp [lookupKey, hak] at h
    · simp only [List.cons_append, lookupKey, hak, if_false] at h ⊢
      exact ih h

theorem runPass_keys (e : Req → Option String) (s : List (ConnId × List Req)) :
    (runPass e s).conns.map Prod.fst = s.map Prod.fst := by
  induction s with
  | nil => rfl
  | cons hd rest ih =>
    obtain ⟨id, q⟩ := hd
    cases q with
    | nil => rfl
    | cons r q2 => cases he : e r <;> simp [runPass, he, ih]

theorem runPass_engine_indep (e1 e2 : Req → Option String)
    (s : List (ConnId × List Req)) :
    (runPass e1 s).conns = (runPass e2 s).conns
    ∧ (runPass e1 s).blocked = (runPass e2 s).blocked := by
  induction s with
  | nil => exact ⟨rfl, rfl⟩
  | cons hd rest ih =>
    obtain ⟨id, q⟩ := hd
    cases q with
    | nil => exact ⟨rfl, rfl⟩
    | cons r q2 =>
      cases he1 : e1 r <;> cases he2 : e2 r <;>
        simp [runPass, he1, he2, ih.1, ih.2]

theorem run_engine_indep (e1 e2 : Req → Option String) (fuel : Nat)
    (s : List (ConnId × List Req)) :
    (run e1 fuel s).conns = (run e2 fuel s).conns
    ∧ (run e1 fuel s).blocked = (run e2 fuel s).blocked := by
  induction fuel generalizing s with
  | zero => exact ⟨rfl, rfl⟩
  | succ n ih =>
    obtain ⟨hc, hb⟩ := runPass_engine_indep e1 e2 s
    by_cases hbv : (runPass e1 s).blocked = true
    · have hbv2 : (runPass e2 s).blocked = true := by rw [← hb]; exact hbv
      simp only [run, if_pos hbv, if_pos hbv2]
      exact ⟨hc, hb⟩
    · have hbv2 : ¬ (runPass e2 s).blocked = true := by rw [← hb]; exact hbv
      simp only [run, if_neg hbv, if_neg hbv2]
      rw [hc]
      exact ⟨(ih (runPass e2 s).conns).1, (ih (runPass e2 s).conns).2⟩

theorem outputsFor_append (cid : ConnId) (a b : List (ConnId × String)) :
    outputsFor cid (a ++ b) = outputsFor cid a ++ outputsFor cid b := by
  induction a with
  | nil => rfl
  | cons hd rest ih =>
    obtain ⟨id, t⟩ := hd
    by_cases hid : id = cid <;> simp [outputsFor, hid, ih]

theorem outputsFor_eq_nil (cid : ConnId) (l : List (ConnId × String))
    (h : ∀ p ∈ l, p.1 ≠ cid) : outputsFor cid l = [] := by
  induction l with
  | nil => rfl
  | cons hd rest ih =>
    obtain ⟨id, t⟩ := hd
    have hid : id ≠ cid := h (id, t) (by simp)
    simp only [outputsFor, hid, if_false]
    exact ih (fun p hp => h p (by simp [hp]))

theorem runPass_outputs_keys (e : Req → Option String)
    (s : List (ConnId × List Req)) :
    ∀ p ∈ (runPass e s).outputs, p.1 ∈ s.map Prod.fst := by
  induction s with
  | nil => intro p hp; simp [runPass] at hp
  | cons hd rest ih =>
    obtain ⟨id, q⟩ := hd
    cases q with
    | nil => intro p hp; simp [runPass] at hp
    | cons r q2 =>
      intro p hp
      simp only [List.map_cons, List.mem_cons]
      cases he : e r with
      | some t =>
        simp only [runPass, he, List.mem_cons] at hp
        rcases hp with h1 | h1
        · exact Or.inl (by rw [h1])
        · exact Or.inr (ih p h1)
      | none =>
        simp only [runPass, he] at hp
        exact Or.inr (ih p hp)

theorem queueOf_eq_nil (cid : ConnId) (s : List (ConnId × List Req))
    (h : cid ∉ s.map Prod.fst) : queueOf cid s = [] := by
  induction s with
  | nil => rfl
  | cons hd rest ih =>
    obtain ⟨id, q⟩ := hd
    simp only [List.map_cons, List.mem_cons] at h
    push_neg at h
    have hid : id ≠ cid := fun hh => h.1 hh.symm
    simp only [queueOf, hid, if_false]
    exact ih h.2

theorem runPass_outputsFor (e : Req → Option String) (cid : ConnId)
    (s : List (ConnId × List Req)) (hnd : (s.map Prod.fst).Nodup) :
    outputsFor cid (runPass e s).outputs
      ++ List.filterMap e (queueOf cid (runPass e s).conns)
      = List.filterMap e (queueOf cid s) := by
  induction s with
  | nil => simp [runPass, outputsFor, queueOf]
  | cons hd rest ih =>
    obtain ⟨id, q⟩ := hd
    simp only [List.map_cons, List.nodup_cons] at hnd
    cases q with
    | nil => simp [runPass, outputsFor]
    | cons r q2 =>
      by_cases hid : id = cid
      · subst hid
        have houts : outputsFor id (runPass e rest).outputs = [] :=
          outputsFor_eq_nil id _
            (fun p hp hc => hnd.1 (hc ▸ runPass_outputs_keys e rest p hp))
        cases he : e r with
        | some t =>
          simp [runPass, he, outputsFor, queueOf, houts, List.filterMap_cons]
        | none =>
          simp [runPass, he, outputsFor, queueOf, houts, List.filterMap_cons]
      · cases he : e r with
        | some t =>
          simp only [runPass, he, outputsFor, queueOf, hid, if_false]
          exact ih hnd.2
        | none =>
          simp only [runPass, he, outputsFor, queueOf, hid, if_false]
          exact ih hnd.2

theorem run_outputsFor (e : Req → Option String) (cid : ConnId) (fuel : Nat)
    (s : List (ConnId × List Req)) (hnd : (s.map Prod.fst).Nodup) :
    outputsFor cid (run e fuel s).outputs
      ++ List.filterMap e (queueOf cid (run e fuel s).conns)
      = List.filterMap e (queueOf cid s) := by
  induction fuel generalizing s with
  | zero => simp [run, outputsFor]
  | succ n ih =>
    by_cases hb : (runPass e s).blocked = true
    · simp only [run, if_pos hb]
      exact runPass_outputsFor e cid s hnd
    · have hnd2 : ((runPass e s).conns.map Prod.fst).Nodup := by
        rw [runPass_keys]; exact hnd
      simp only [run, if_neg hb]
      rw [outputsFor_append, List.append_assoc, ih (runPass e s).conns hnd2]
      exact runPass_outputsFor e cid s hnd

theorem runPass_no_sleep (e : Req → Option String)
    (s : List (ConnId × List Req)) :
    Action.sleep ∉ (runPass e s).trace := by
  induction s with
  | nil => simp [runPass]
  | cons hd rest ih =>
    obtain ⟨id, q⟩ := hd
    cases q with
    | nil => simp [runPass]
    | cons r q2 => cases he : e r <;> simp [runPass, he, ih]

theorem run_no_sleep (e : Req → Option String) (fuel : Nat)
    (s : List (ConnId × List Req)) :
    Action.sleep ∉ (run e fuel s).trace := by
  induction fuel generalizing s with
  | zero => simp [run]
  | succ n ih =>
    by_cases hb : (runPass e s).blocked = true
    · simp only [run, if_pos hb]
      exact runPass_no_sleep e s
    · simp only [run, if_neg hb, List.mem_append]
      push_neg
      exact ⟨runPass_no_sleep e s, ih (runPass e s).conns⟩

theorem run_nil_registry (e : Req → Option String) (fuel : Nat) :
    run e fuel [] = ⟨[], [], [], false⟩ := by
  induction fuel with
  | zero => rfl
  | succ n ih => simp [run, runPass, ih]

end TranscriptionWorker

theorem filterMap_eq_map_of {α β : Type} (e : α → Option β) (f : α → β)
    (l : List α) (h : ∀ r ∈ l, e r = some (f r)) :
    l.filterMap e = l.map f := by
  induction l with
  | nil => rfl
  | cons r rest ih =>
    rw [List.filterMap_cons, h r (by simp), List.map_cons,
      ih (fun x hx => h x (by simp [hx]))]

/-- Claim C1: the claim states that the per-connection dequeue is a
non-blocking pop, with an empty queue skipped immediately.  The code
instead calls the blocking request_queue.get(), so a pass over a
snapshot whose first connection has an empty queue stops inside that
get and never reaches the pending request of the next connection; the
except queue.Empty handler, unreachable behind a blocking get, shows
the non-blocking pop was the intent. -/
theorem blocking_get_stalls_scan :
    TranscriptionWorker.runPass (fun _ => none) [("a", []), ("b", [7])]
      = ⟨[TranscriptionWorker.Action.block "a"], [],
         [("a", []), ("b", [7])], true⟩
    ∧ TranscriptionWorker.Action.pop "b"
        ∉ (TranscriptionWorker.runPass (fun _ => none)
            [("a", []), ("b", [7])]).trace :=
  ⟨rfl, by decide⟩

/-- Claim C2: per-connection FIFO: when the engine succeeds on every
request pending for connection cid, the texts delivered for cid over
any number of scheduler passes are an in-order prefix of the
transcriptions of the requests of cid in submission order, whatever
other connections share the snapshot and however their requests
interleave in the round of passes. -/
theorem per_connection_fifo (e : Req → Option String) (f : Req → String)
    (fuel : Nat) (s : List (ConnId × List Req)) (cid : ConnId)
    (hnd : (s.map Prod.fst).Nodup)
    (hok : ∀ r ∈ TranscriptionWorker.queueOf cid s, e r = some (f r)) :
    ∃ pending,
      TranscriptionWorker.outputsFor cid
          (TranscriptionWorker.run e fuel s).outputs ++ pending
        = (TranscriptionWorker.queueOf cid s).map f :=
  ⟨_, by
    rw [← filterMap_eq_map_of e f _ hok]
    exact TranscriptionWorker.run_outputsFor e cid fuel s hnd⟩

theorem per_connection_fifo_witness :
    (([("a", [1, 2])] : List (ConnId × List Req)).map Prod.fst).Nodup
    ∧ (∀ r ∈ TranscriptionWorker.queueOf "a" [("a", [1, 2])],
        (fun r => some (Nat.repr r)) r = some (Nat.repr r))
    ∧ ∃ pending,
        TranscriptionWorker.outputsFor "a"
            (TranscriptionWorker.run (fun r => some (Nat.repr r)) 3
              [("a", [1, 2])]).outputs ++ pending
          = (TranscriptionWorker.queueOf "a" [("a", [1, 2])]).map Nat.repr :=
  ⟨by decide, fun r _ => rfl,
    per_connection_fifo (fun r => some (Nat.repr r)) Nat.repr 3
      [("a", [1, 2])] "a" (by decide) (fun r _ => rfl)⟩

/-- Claim C3: engine failures are isolated: the final queues and the
blocked flag after any number of passes do not depend on the engine
outcomes at all, so a raised exception never halts the loop and never
changes which subsequent requests of the same or other connections get
dequeued; and the texts delivered for each connection are exactly the
successful transcriptions of its processed requests in order, the
failing request being discarded with no delivery. -/
theorem engine_failure_isolated (e1 e2 : Req → Option String) (fuel : Nat)
    (s : List (ConnId × List Req)) (cid : ConnId)
    (hnd : (s.map Prod.fst).Nodup) :
    (TranscriptionWorker.run e1 fuel s).conns
      = (TranscriptionWorker.run e2 fuel s).conns
    ∧ (TranscriptionWorker.run e1 fuel s).blocked
      = (TranscriptionWorker.run e2 fuel s).blocked
    ∧ TranscriptionWorker.outputsFor cid
          (TranscriptionWorker.run e1 fuel s).outputs
        ++ List.filterMap e1
            (TranscriptionWorker.queueOf cid
              (TranscriptionWorker.run e1 fuel s).conns)
        = List.filterMap e1 (TranscriptionWorker.queueOf cid s) :=
  ⟨(TranscriptionWorker.run_engine_indep e1 e2 fuel s).1,
   (TranscriptionWorker.run_engine_indep e1 e2 fuel s).2,
   TranscriptionWorker.run_outputsFor e1 cid fuel s hnd⟩

theorem engine_failure_isolated_witness :
    ((([("a", [1, 2]), ("b", [3])] : List (ConnId × List Req)).map
        Prod.fst).Nodup)
    ∧ ((TranscriptionWorker.run
          (fun r => if r = 1 then none else some "t") 2
          [("a", [1, 2]), ("b", [3])]).conns
        = (TranscriptionWorker.run (fun _ => some "t") 2
            [("a", [1, 2]), ("b", [3])]).conns
      ∧ (TranscriptionWorker.run
            (fun r => if r = 1 then none else some "t") 2
            [("a", [1, 2]), ("b", [3])]).blocked
          = (TranscriptionWorker.run (fun _ => some "t") 2
              [("a", [1, 2]), ("b", [3])]).blocked
      ∧ TranscriptionWorker.outputsFor "a"
            (TranscriptionWorker.run
              (fun r => if r = 1 then none else some "t") 2
              [("a", [1, 2]), ("b", [3])]).outputs
          ++ List.filterMap (fun r => if r = 1 then none else some "t")
              (TranscriptionWorker.queueOf "a"
                (TranscriptionWorker.run
                  (fun r => if r = 1 then none else some "t") 2
                  [("a", [1, 2]), ("b", [3])]).conns)
          = List.filterMap (fun r => if r = 1 then none else some "t")
              (TranscriptionWorker.queueOf "a"
                [("a", [1, 2]), ("b", [3])])) :=
  ⟨by decide,
    engine_failure_isolated (fun r => if r = 1 then none else some "t")
      (fun _ => some "t") 2 [("a", [1, 2]), ("b", [3])] "a" (by decide)⟩

/-- Claim C4: registration is idempotent: a second get_request_queue
for the same id returns exactly the same handle and leaves the registry
unchanged, and the first registration of an unknown id stores a fresh
empty queue under the returned handle, so no second queue is ever
created for one identifier. -/
theorem register_idempotent (reg : TranscriptionWorker.Registry)
    (cid : ConnId) :
    TranscriptionWorker.get_request_queue
        (TranscriptionWorker.get_request_queue reg cid).2 cid
      = TranscriptionWorker.get_request_queue reg cid
    ∧ (lookupKey cid reg.connections = none →
        lookupKey (TranscriptionWorker.get_request_queue reg cid).1
            (TranscriptionWorker.get_request_queue reg cid).2.queues
          = some []) := by
  cases hl : lookupKey cid reg.connections with
  | some h =>
    constructor
    · simp [TranscriptionWorker.get_request_queue, hl]
    · intro hnone
      exact absurd hnone (by simp)
  | none =>
    have h1 : TranscriptionWorker.get_request_queue reg cid
        = (reg.nextHandle,
           ⟨reg.connections ++ [(cid, reg.nextHandle)],
            (reg.nextHandle, []) :: reg.queues, reg.nextHandle + 1⟩) := by
      simp [TranscriptionWorker.get_request_queue, hl]
    constructor
    · rw [h1]
      simp [TranscriptionWorker.get_request_queue,
        TranscriptionWorker.lookupKey_append_single cid reg.nextHandle
          reg.connections hl]
    · intro _
      rw [h1]
      simp [lookupKey]

theorem register_idempotent_witness :
    lookupKey "a" (⟨[], [], 0⟩ : TranscriptionWorker.Registry).connections
      = none
    ∧ lookupKey (TranscriptionWorker.get_request_queue ⟨[], [], 0⟩ "a").1
        (TranscriptionWorker.get_request_queue ⟨[], [], 0⟩ "a").2.queues
      = some [] :=
  ⟨rfl, (register_idempotent ⟨[], [], 0⟩ "a").2 rfl⟩

/-- Claim C5 counterexample: a pass over a registry whose only
connection has an empty queue finds no pending work anywhere, yet the
loop performs no backoff sleep before the next pass: it is stuck
forever inside the blocking get, and a loop over an empty registry
runs every pass back to back with no sleep in the trace. -/
theorem no_idle_backoff_counterexample :
    (TranscriptionWorker.run (fun _ => none) 5 [("a", [])]).blocked = true
    ∧ TranscriptionWorker.Action.sleep
        ∉ (TranscriptionWorker.run (fun _ => none) 5 [("a", [])]).trace
    ∧ TranscriptionWorker.run (fun _ => none) 5
        ([] : List (ConnId × List Req)) = ⟨[], [], [], false⟩ := by
  decide

/-- Claim C5 amended: the loop never sleeps: no run of the scheduler
emits a sleep action; a pass over an empty registry completes
immediately and the loop re-scans back to back (busy spin), while a
pass that reaches a connection with an empty queue stops inside the
blocking get instead of backing off. -/
theorem run_never_sleeps (e : Req → Option String) (fuel : Nat)
    (s : List (ConnId × List Req)) (cid : ConnId)
    (rest : List (ConnId × List Req)) :
    TranscriptionWorker.Action.sleep
        ∉ (TranscriptionWorker.run e fuel s).trace
    ∧ TranscriptionWorker.run e fuel [] = ⟨[], [], [], false⟩
    ∧ TranscriptionWorker.runPass e ((cid, []) :: rest)
        = ⟨[TranscriptionWorker.Action.block cid], [],
           (cid, []) :: rest, true⟩ :=
  ⟨TranscriptionWorker.run_no_sleep e fuel s,
   TranscriptionWorker.run_nil_registry e fuel, rfl⟩

/-- Claim C6 counterexample: start is not idempotent: the worker starts
once from its initial state, and a second start raises RuntimeError,
since TranscriptionWorker inherits start from threading.Thread, which
allows one start only. -/
theorem start_twice_raises :
    TranscriptionWorker.start TranscriptionWorker.initWorker
      = Except.ok ⟨true, true⟩
    ∧ TranscriptionWorker.start ⟨true, true⟩
      = Except.error "threads can only be started once" :=
  ⟨rfl, rfl⟩

/-- Claim C6 amended: stop is idempotent: a second stop leaves the
worker state exactly as a single stop does; start is not idempotent: on
an already started worker it raises RuntimeError, while a first start
succeeds. -/
theorem stop_idempotent_start_raises (w : TranscriptionWorker.Lifecycle) :
    TranscriptionWorker.stop (TranscriptionWorker.stop w)
      = TranscriptionWorker.stop w
    ∧ TranscriptionWorker.start ⟨true, w.is_running⟩
      = Except.error "threads can only be started once"
    ∧ TranscriptionWorker.start ⟨false, w.is_running⟩
      = Except.ok ⟨true, w.is_running⟩ :=
  ⟨rfl, rfl, rfl⟩

/-- Claim C7: the code has no unregister: get_request_queue only ever
extends the connections dict of the registry, and a scheduler pass
never changes its key sequence, so no operation of TranscriptionWorker
removes a registry entry. -/
theorem connections_never_removed (reg : TranscriptionWorker.Registry)
    (cid : ConnId) (e : Req → Option String)
    (s : List (ConnId × List Req)) :
    (∃ l, (TranscriptionWorker.get_request_queue reg cid).2.connections
        = reg.connections ++ l)
    ∧ (TranscriptionWorker.runPass e s).conns.map Prod.fst
        = s.map Prod.fst := by
  constructor
  · cases hl : lookupKey cid reg.connections with
    | some h =>
      exact ⟨[], by simp [TranscriptionWorker.get_request_queue, hl]⟩
    | none =>
      exact ⟨[(cid, reg.nextHandle)],
        by simp [TranscriptionWorker.get_request_queue, hl]⟩
  · exact TranscriptionWorker.runPass_keys e s

/-- Claim C8: put_nowait rejects exactly when the queue is at capacity;
the queue.Queue() made by get_request_queue is unbounded, so enqueueing
onto it always succeeds; the submission loop of accept handles a
rejection locally: it never sends anything to the client, and on a
concrete full queue every chunk is dropped and logged while the loop
carries on and returns normally. -/
theorem enqueue_rejected_iff_full :
    (∀ (q : TranscriptionHandler.Queue) (r : Req),
        q.put_nowait r = Except.error () ↔ q.isFull = true)
    ∧ (∀ (items : List Req) (r : Req),
        TranscriptionHandler.Queue.put_nowait ⟨0, items⟩ r
          = Except.ok ⟨0, items ++ [r]⟩)
    ∧ (∀ (q : TranscriptionHandler.Queue) (chunks : List Req),
        (TranscriptionHandler.submitChunks q chunks).clientMsgs = [])
    ∧ TranscriptionHandler.submitChunks ⟨1, [0]⟩ [1, 2]
        = ⟨⟨1, [0]⟩, 2, []⟩ := by
  refine ⟨?_, ?_, ?_, by decide⟩
  · intro q r
    unfold TranscriptionHandler.Queue.put_nowait
    by_cases hf : q.isFull = true
    · simp [hf]
    · simp [hf]
  · intro items r
    rfl
  · intro q chunks
    induction chunks generalizing q with
    | nil => rfl
    | cons c rest ih =>
      unfold TranscriptionHandler.submitChunks
      cases hpn : TranscriptionHandler.Queue.put_nowait q c with
      | ok q2 => simp [hpn, ih]
      | error u => simp [hpn, ih]

/-- Claim C9: whatever the duration of the loaded audio, the chunking
of __load_audio_chunks_blocking returns exactly one chunk of at most
240000 samples, because nchunks is computed as the ceiling of
len(audio) over chunk_shift_samples while audio is the 2-D tensor with
a single channel row, so len(audio) is 1 and nchunks is always 1. -/
theorem load_audio_chunks_single {α : Type} (mix : List α → α)
    (audio : List (List α)) (h : audio ≠ []) :
    (TranscriptionHandler.load_audio_chunks mix audio).length = 1
    ∧ (∀ c ∈ TranscriptionHandler.load_audio_chunks mix audio,
        c.length ≤ 240000)
    ∧ TranscriptionHandler.chunk_samples = 240000 := by
  have hcss : TranscriptionHandler.chunk_shift_samples = 224000 := rfl
  have hcs : TranscriptionHandler.chunk_samples = 240000 := rfl
  have haudio2 :
      (if 1 < audio.length then [(audio.transpose).map mix] else audio).length
        = 1 := by
    by_cases h1 : 1 < audio.length
    · simp [h1]
    · have h0 : audio.length ≠ 0 := fun hz => h (List.length_eq_zero.mp hz)
      simp only [h1, if_false]
      omega
  refine ⟨?_, ?_, hcs⟩
  · simp only [TranscriptionHandler.load_audio_chunks, haudio2, hcss]
    norm_num
  · intro c hc
    simp only [TranscriptionHandler.load_audio_chunks, haudio2, hcss,
      hcs] at hc
    have h1 : (1 + 224000 - 1) / 224000 = 1 := by norm_num
    rw [h1, show List.range 1 = [0] from rfl] at hc
    simp only [List.map_cons, List.map_nil, List.mem_singleton] at hc
    subst hc
    simp only [List.length_take]
    exact min_le_left _ _

theorem load_audio_chunks_single_witness :
    ([[1, 2, 3]] : List (List Nat)) ≠ []
    ∧ (TranscriptionHandler.load_audio_chunks (fun _ => 0)
        [[1, 2, 3]]).length = 1 :=
  ⟨by decide,
    (load_audio_chunks_single (fun _ => 0) [[1, 2, 3]] (by decide)).1⟩

/-- Claim C10: the served websocket endpoint never sends a message to
the client and never submits a transcription request: whatever frames
the client sends, the receive loop only decodes them to normalized
rational samples, so no client of the public interface ever receives a
transcription result. -/
theorem websocket_endpoint_silent (frames : List (List Int)) :
    (MainServer.websocket_endpoint frames).sent = []
    ∧ (MainServer.websocket_endpoint frames).submitted = []
    ∧ (MainServer.websocket_endpoint frames).decoded
        = frames.map MainServer.decodeFrame := by
  induction frames with
  | nil => exact ⟨rfl, rfl, rfl⟩
  | cons f rest ih =>
    refine ⟨ih.1, ih.2.1, ?_⟩
    simp only [MainServer.websocket_endpoint, MainServer.endpointLoop,
      List.map_cons]
    rw [show (MainServer.endpointLoop rest).decoded
        = (MainServer.websocket_endpoint rest).decoded from rfl, ih.2.2]
